import Mathlib

/-!
Shallow embedding of the agentrpc tool-invocation pipeline:
registry (LocalToolRegistry), access policy store (AccessControlService),
result cache (ToolCache), metrics collector (PerformanceMonitor),
executor (LocalToolExecutor.executeTool) and facade (LocalAgentRPC),
together with proofs about the pipeline's behaviour.
-/

namespace AgentRPC

/-- JavaScript values that flow through the pipeline as tool inputs and
outputs, modelled as JSON-like data (objects keep field insertion order,
exactly as JS object literals and `Map`s do). -/
inductive Json where
  | null : Json
  | bool (b : Bool) : Json
  | num (n : Int) : Json
  | str (s : String) : Json
  | arr (elems : List Json) : Json
  | obj (fields : List (String × Json)) : Json
deriving Repr

/-- Escape of a single character inside a JSON string literal. -/
def escapeChar (c : Char) : String :=
  if c = '"' then "\\\"" else if c = '\\' then "\\\\" else String.singleton c

/-- Escape of a whole string for inclusion in a JSON string literal. -/
def escapeString (s : String) : String :=
  s.data.foldl (fun acc c => acc ++ escapeChar c) ""

mutual

/-- Model of `JSON.stringify` on the embedded values: object fields are
serialized in insertion order (JS semantics). -/
def stringify : Json → String
  | Json.null => "null"
  | Json.bool b => cond b "true" "false"
  | Json.num n => toString n
  | Json.str s => "\"" ++ escapeString s ++ "\""
  | Json.arr elems => "[" ++ stringifyList elems ++ "]"
  | Json.obj fields => "\x7b" ++ stringifyFields fields ++ "\x7d"

/-- Comma-separated serialization of array elements. -/
def stringifyList : List Json → String
  | [] => ""
  | [x] => stringify x
  | x :: xs => stringify x ++ "," ++ stringifyList xs

/-- Comma-separated serialization of object fields in insertion order. -/
def stringifyFields : List (String × Json) → String
  | [] => ""
  | [(k, v)] => "\"" ++ escapeString k ++ "\":" ++ stringify v
  | (k, v) :: fs => "\"" ++ escapeString k ++ "\":" ++ stringify v ++ "," ++ stringifyFields fs

end

/-- User roles from src/security/auth.ts (enum UserRole). -/
inductive UserRole where
  | admin
  | user
  | guest
deriving DecidableEq, Repr

/-- Optional per-tool configuration from the Tool interface in
registry/LocalToolRegistry.ts. -/
structure ToolConfig where
  retryCountOnStall : Option Nat := none
  timeoutSeconds : Option Nat := none
  enableCache : Option Bool := none
  cacheTimeSeconds : Option Nat := none
  allowedRoles : Option (List UserRole) := none

/-- Outcome of running a tool handler: it settles with a value, settles
with a raised error, or never settles before any deadline (a stall). -/
inductive HandlerResult where
  | ok (v : Json)
  | raise (msg : String)
  | stall

/-- A tool definition (the Tool interface): name, description, an input
schema with `parse` semantics (validated value or a ZodError message),
a handler, and optional configuration. -/
structure Tool where
  name : String
  description : String
  schema : Json → Except String Json
  handler : Json → HandlerResult
  config : Option ToolConfig

/-! Insertion-ordered association lists model the JS `Map`: `set` on an
existing key updates it in place (keeping its position), `delete` removes
it, iteration follows insertion order. -/

/-- Lookup in an insertion-ordered map (JS `Map.get`). -/
def mapGet {β : Type} : List (String × β) → String → Option β
  | [], _ => none
  | (k, v) :: rest, key => if k = key then some v else mapGet rest key

/-- Update-or-append in an insertion-ordered map (JS `Map.set`): an
existing key keeps its position, a new key is appended at the end. -/
def mapSet {β : Type} : List (String × β) → String → β → List (String × β)
  | [], key, val => [(key, val)]
  | (k, v) :: rest, key, val =>
      if k = key then (key, val) :: rest else (k, v) :: mapSet rest key val

/-- Removal from an insertion-ordered map (JS `Map.delete`). -/
def mapDelete {β : Type} : List (String × β) → String → List (String × β)
  | [], _ => []
  | (k, v) :: rest, key => if k = key then rest else (k, v) :: mapDelete rest key

/-- Key membership (JS `Map.has`). -/
def mapHas {β : Type} (m : List (String × β)) (key : String) : Bool :=
  (mapGet m key).isSome

/-! ToolCache from src/utils/cache.ts: a bounded TTL map. Timestamps are
Nat milliseconds; `Date.now()` is passed in explicitly as `now`. -/

/-- A cache entry: value, creation timestamp, time-to-live in ms
(0 means no expiration). -/
structure CacheEntry (α : Type) where
  value : α
  timestamp : Nat
  ttlMs : Nat

/-- Cache state: insertion-ordered map from key to entry. -/
abbrev Cache (α : Type) : Type := List (String × CacheEntry α)

/-- One step of the `findOldestEntry` loop: keep the entry with the
strictly smallest timestamp seen so far (first wins ties, since the JS
loop only replaces on a strict `<`). -/
def oldestStep {α : Type} (acc : Option (String × Nat)) (kv : String × CacheEntry α) :
    Option (String × Nat) :=
  match acc with
  | none => some (kv.1, kv.2.timestamp)
  | some (ok, ots) => if kv.2.timestamp < ots then some (kv.1, kv.2.timestamp) else some (ok, ots)

/-- ToolCache.findOldestEntry: key of the entry with the smallest
creation timestamp (iteration in insertion order, starting from
`oldestTimestamp = Infinity`). -/
def findOldestEntry {α : Type} (c : Cache α) : Option String :=
  (c.foldl oldestStep none).map (fun p => p.1)

/-- ToolCache.set: when at capacity, first evict the oldest entry, then
insert/overwrite the key with a fresh timestamp. -/
def cacheSet {α : Type} (maxEntries : Nat) (c : Cache α) (key : String) (value : α)
    (ttlMs : Nat) (now : Nat) : Cache α :=
  let c1 :=
    if maxEntries ≤ c.length then
      match findOldestEntry c with
      | some oldestKey => mapDelete c oldestKey
      | none => c
    else c
  mapSet c1 key ⟨value, now, ttlMs⟩

/-- ToolCache.get: absent keys give none; an entry with positive ttl
whose age exceeds the ttl is lazily deleted and reported absent;
otherwise the stored value is returned and the cache is unchanged. -/
def cacheGet {α : Type} (c : Cache α) (key : String) (now : Nat) : Option α × Cache α :=
  match mapGet c key with
  | none => (none, c)
  | some e =>
      if 0 < e.ttlMs ∧ e.ttlMs < now - e.timestamp then (none, mapDelete c key)
      else (some e.value, c)

/-- ToolCache.has: same expiry semantics as get, returning a Bool. -/
def cacheHas {α : Type} (c : Cache α) (key : String) (now : Nat) : Bool × Cache α :=
  match mapGet c key with
  | none => (false, c)
  | some e =>
      if 0 < e.ttlMs ∧ e.ttlMs < now - e.timestamp then (false, mapDelete c key)
      else (true, c)

/-! AccessControlService from src/security/access-control.ts. -/

/-- Access-policy store state: per-tool allow-lists plus the default
policy (whose built-in value is `[admin, user]`). -/
structure AccessControlState where
  policies : List (String × List UserRole)
  defaultPolicy : List UserRole

/-- AccessControlService.getPolicy: tool-specific policy, else the
default policy. -/
def getPolicy (s : AccessControlState) (toolName : String) : List UserRole :=
  (mapGet s.policies toolName).getD s.defaultPolicy

/-- AccessControlService.isAllowed: admins always have access; otherwise
membership in the resolved policy's allow-list. -/
def isAllowed (s : AccessControlState) (toolName : String) (role : UserRole) : Bool :=
  if role = UserRole.admin then true
  else (getPolicy s toolName).contains role

/-! LocalToolRegistry from src/registry/LocalToolRegistry.ts. -/

/-- Registry state: insertion-ordered map from tool name to tool. -/
abbrev Registry : Type := List (String × Tool)

/-- LocalToolRegistry.getTool. -/
def getTool (reg : Registry) (name : String) : Option Tool :=
  mapGet reg name

/-- LocalToolRegistry.hasTool. -/
def hasTool (reg : Registry) (name : String) : Bool :=
  mapHas reg name

/-- LocalToolRegistry.register: throws on a duplicate name (leaving the
registry untouched), otherwise inserts. The pair is (state after the
call, raised error message if any). -/
def register (reg : Registry) (t : Tool) : Registry × Option String :=
  if mapHas reg t.name then
    (reg, some ("Tool with name " ++ t.name ++ " already registered"))
  else
    (mapSet reg t.name t, none)

/-! PerformanceMonitor from src/utils/performance.ts. -/

/-- One recorded metrics sample (ToolPerformanceMetrics). -/
structure ToolPerformanceMetrics where
  toolName : String
  executionTimeMs : Nat
  validationTimeMs : Nat
  inputSizeBytes : Nat
  outputSizeBytes : Nat
  timestamp : Nat
deriving DecidableEq, Repr

/-- PerformanceMonitor.recordToolMetrics: append, then drop the single
oldest sample if the limit is exceeded. -/
def recordToolMetrics (metricsLimit : Nat) (samples : List ToolPerformanceMetrics)
    (m : ToolPerformanceMetrics) : List ToolPerformanceMetrics :=
  let samples1 := samples ++ [m]
  if metricsLimit < samples1.length then samples1.tail else samples1

/-! LocalToolExecutor from src/executor/LocalToolExecutor.ts. -/

/-- Per-call execution options (ExecuteToolOptions). -/
structure ExecuteToolOptions where
  timeoutMs : Option Nat := none
  useCache : Option Bool := none
  cacheTtlMs : Option Nat := none
  userRole : Option UserRole := none
  collectMetrics : Option Bool := none

/-- Result envelope of a successful execution (ToolExecutionResult). -/
structure ToolExecutionResult where
  toolName : String
  result : Json
  executionTimeMs : Nat
deriving Repr

/-- A value thrown inside the executor's try block (other than a
ZodError), recorded as the opaque cause of the wrapping error. -/
inductive Thrown where
  | timeoutError (toolName : String) (timeoutMs : Nat)
  | handlerError (msg : String)
  | typeErrorConfigUndefined
deriving DecidableEq, Repr

/-- The failure cases surfaced by executeTool. All of them are thrown as
a single ToolExecutionError class in the source; the constructors here
distinguish the messages/causes the code attaches. -/
inductive ExecError where
  | notFound (toolName : String)
  | accessDenied (toolName : String) (role : UserRole)
  | validation (toolName : String) (cause : String)
  | generic (toolName : String) (cause : Thrown)
deriving DecidableEq, Repr

/-- Overall outcome of one executeTool call: a result, a raised
ToolExecutionError, or an await that never settles (untimed stall). -/
inductive ExecOutcome where
  | ok (r : ToolExecutionResult)
  | err (e : ExecError)
  | diverges

/-- Shared mutable state touched by the executor: the tool cache
singleton and the performance monitor's sample list. -/
structure ExecState where
  cache : Cache ToolExecutionResult
  metrics : List ToolPerformanceMetrics

/-- Which stages ran during a call: did the schema validator run, did
the handler run. -/
structure Trace where
  validatorRan : Bool
  handlerRan : Bool
deriving DecidableEq, Repr

/-- Max entries of the toolCache singleton (constructor default 1000). -/
def toolCacheMaxEntries : Nat := 1000

/-- Metrics limit of the performanceMonitor singleton (default 1000). -/
def performanceMetricsLimit : Nat := 1000

/-- JS truthiness of an optional number (undefined and 0 are falsy). -/
def truthyNum : Option Nat → Bool
  | some n => n != 0
  | none => false

/-- What the timeout setup of stage 5 amounts to: a thrown TypeError, no
deadline, or a deadline of the given milliseconds. -/
inductive TimeoutSetup where
  | crash
  | noTimeout
  | withTimeout (ms : Nat)
deriving DecidableEq, Repr

/-- The executor's timeout resolution, line for line. The source reads
`options?.timeoutMs || tool.config?.timeoutSeconds ? tool.config.timeoutSeconds * 1000 : undefined`,
which JS parses as
`(options?.timeoutMs || tool.config?.timeoutSeconds) ? tool.config.timeoutSeconds * 1000 : undefined`:
when the condition is truthy it reads `tool.config.timeoutSeconds`
without optional chaining (a TypeError when config is undefined, NaN
times 1000 when only timeoutSeconds is undefined), and the per-call
option value itself is never used as the deadline. A falsy product
(NaN or 0) makes the later `if (timeoutMs)` skip the deadline. -/
def resolveTimeoutSetup (optTimeoutMs : Option Nat) (config : Option ToolConfig) :
    TimeoutSetup :=
  if truthyNum optTimeoutMs || truthyNum (config.bind (fun c => c.timeoutSeconds)) then
    match config with
    | none => TimeoutSetup.crash
    | some c =>
        match c.timeoutSeconds with
        | none => TimeoutSetup.noTimeout
        | some s =>
            if s * 1000 = 0 then TimeoutSetup.noTimeout
            else TimeoutSetup.withTimeout (s * 1000)
  else TimeoutSetup.noTimeout

/-- Timeout resolution as the specification states it (priority order:
per-call option, else configured timeoutSeconds in ms, else none),
stated for comparison with resolveTimeoutSetup. -/
def specResolveTimeout (optTimeoutMs : Option Nat) (config : Option ToolConfig) :
    TimeoutSetup :=
  match optTimeoutMs with
  | some t => TimeoutSetup.withTimeout t
  | none =>
      match config.bind (fun c => c.timeoutSeconds) with
      | some s => TimeoutSetup.withTimeout (s * 1000)
      | none => TimeoutSetup.noTimeout

/-- The executor's cache-usage resolution: `options?.useCache ?? true`.
The tool's config is not consulted. -/
def resolveUseCache (optUseCache : Option Bool) : Bool :=
  optUseCache.getD true

/-- Cache-usage resolution as the specification states it (per-call
option, else the tool's enableCache flag, else enabled), stated for
comparison with resolveUseCache. -/
def specResolveUseCache (optUseCache : Option Bool) (config : Option ToolConfig) : Bool :=
  optUseCache.getD ((config.bind (fun c => c.enableCache)).getD true)

/-- Cache TTL resolution on population:
`options?.cacheTtlMs ?? (tool.config?.cacheTimeSeconds ? tool.config.cacheTimeSeconds * 1000 : 300000)`. -/
def resolveCacheTtlMs (optCacheTtlMs : Option Nat) (config : Option ToolConfig) : Nat :=
  match optCacheTtlMs with
  | some t => t
  | none =>
      match config.bind (fun c => c.cacheTimeSeconds) with
      | some s => if s = 0 then 300000 else s * 1000
      | none => 300000

/-- LocalToolExecutor.generateCacheKey: toolName ++ ":" ++ JSON.stringify(input). -/
def generateCacheKey (toolName : String) (input : Json) : String :=
  toolName ++ ":" ++ stringify input

/-- Success epilogue of executeTool: build the result envelope, record
metrics (best effort) unless disabled, populate the cache if caching is
on for this call, and return. -/
def finishSuccess (tool : Tool) (toolName : String) (input : Json)
    (options : ExecuteToolOptions) (useCache : Bool) (st : ExecState)
    (now valMs execMs : Nat) (v : Json) : ExecOutcome × ExecState × Trace :=
  let toolResult : ToolExecutionResult := ⟨toolName, v, execMs⟩
  let sample : ToolPerformanceMetrics :=
    ⟨toolName, execMs, valMs, (stringify input).length, (stringify v).length, now⟩
  let st1 :=
    if options.collectMetrics.getD true then
      { st with metrics := recordToolMetrics performanceMetricsLimit st.metrics sample }
    else st
  let st2 :=
    if useCache then
      let key := generateCacheKey toolName input
      let ttl := resolveCacheTtlMs options.cacheTtlMs tool.config
      { st1 with cache := cacheSet toolCacheMaxEntries st1.cache key toolResult ttl now }
    else st1
  (ExecOutcome.ok toolResult, st2, ⟨true, true⟩)

/-- Stages 4-8 of executeTool (the try block): validate the raw input,
resolve the timeout, run the handler (racing the deadline when one is
set), then the success epilogue. Thrown values are mapped by the catch
clause: a ZodError becomes a validation error, everything else a
generic wrapped error. -/
def runToolStages (tool : Tool) (toolName : String) (input : Json)
    (options : ExecuteToolOptions) (useCache : Bool) (st : ExecState)
    (now valMs execMs : Nat) : ExecOutcome × ExecState × Trace :=
  match tool.schema input with
  | Except.error zodMsg => (ExecOutcome.err (ExecError.validation toolName zodMsg), st, ⟨true, false⟩)
  | Except.ok validatedInput =>
      match resolveTimeoutSetup options.timeoutMs tool.config with
      | TimeoutSetup.crash =>
          (ExecOutcome.err (ExecError.generic toolName Thrown.typeErrorConfigUndefined), st, ⟨true, false⟩)
      | TimeoutSetup.noTimeout =>
          match tool.handler validatedInput with
          | HandlerResult.ok v => finishSuccess tool toolName input options useCache st now valMs execMs v
          | HandlerResult.raise m =>
              (ExecOutcome.err (ExecError.generic toolName (Thrown.handlerError m)), st, ⟨true, true⟩)
          | HandlerResult.stall => (ExecOutcome.diverges, st, ⟨true, true⟩)
      | TimeoutSetup.withTimeout ms =>
          match tool.handler validatedInput with
          | HandlerResult.ok v => finishSuccess tool toolName input options useCache st now valMs execMs v
          | HandlerResult.raise m =>
              (ExecOutcome.err (ExecError.generic toolName (Thrown.handlerError m)), st, ⟨true, true⟩)
          | HandlerResult.stall =>
              (ExecOutcome.err (ExecError.generic toolName (Thrown.timeoutError toolName ms)), st, ⟨true, true⟩)

/-- Stage 3 onward of executeTool: cache probe (when caching resolves
on for this call) with early return on a hit, then stages 4-8. -/
def executeToolAfterAuth (tool : Tool) (toolName : String) (input : Json)
    (options : ExecuteToolOptions) (st : ExecState) (now valMs execMs : Nat) :
    ExecOutcome × ExecState × Trace :=
  let useCache := resolveUseCache options.useCache
  if useCache then
    match cacheGet st.cache (generateCacheKey toolName input) now with
    | (some cached, c1) => (ExecOutcome.ok cached, ⟨c1, st.metrics⟩, ⟨false, false⟩)
    | (none, c1) =>
        runToolStages tool toolName input options useCache ⟨c1, st.metrics⟩ now valMs execMs
  else
    runToolStages tool toolName input options useCache st now valMs execMs

/-- LocalToolExecutor.executeTool: resolve the tool (stage 1), check
access control only when a user role is supplied (stage 2), then cache
probe and the remaining stages. `now` stands for Date.now(), `valMs`
and `execMs` for the elapsed validation/execution durations observed by
the surrounding Date.now() calls. -/
def executeTool (reg : Registry) (acs : AccessControlState) (toolName : String)
    (input : Json) (options : ExecuteToolOptions) (st : ExecState)
    (now valMs execMs : Nat) : ExecOutcome × ExecState × Trace :=
  match getTool reg toolName with
  | none => (ExecOutcome.err (ExecError.notFound toolName), st, ⟨false, false⟩)
  | some tool =>
      match options.userRole with
      | some role =>
          if isAllowed acs toolName role then
            executeToolAfterAuth tool toolName input options st now valMs execMs
          else
            (ExecOutcome.err (ExecError.accessDenied toolName role), st, ⟨false, false⟩)
      | none => executeToolAfterAuth tool toolName input options st now valMs execMs

/-! LocalAgentRPC (the pipeline facade). -/

/-- Lifecycle event types (EventType). -/
inductive EventType where
  | tool_registered
  | tool_execution_started
  | tool_execution_completed
  | tool_execution_failed
deriving DecidableEq, Repr

/-- An emitted event (type plus the toolName carried in its payload). -/
structure Event where
  etype : EventType
  toolName : String
deriving DecidableEq, Repr

/-- The facade's per-call timeout option:
`this.options.defaultTimeoutSeconds ? this.options.defaultTimeoutSeconds * 1000 : undefined`. -/
def facadeTimeoutMs (defaultTimeoutSeconds : Option Nat) : Option Nat :=
  match defaultTimeoutSeconds with
  | some s => if s = 0 then none else some (s * 1000)
  | none => none

/-- LocalAgentRPC.executeTool: emit started, delegate to the executor
passing only the timeout option, then emit completed and return the
result, or emit failed and re-raise. The first component lists the
emitted events in order. -/
def facadeExecuteTool (defaultTimeoutSeconds : Option Nat) (reg : Registry)
    (acs : AccessControlState) (toolName : String) (input : Json) (st : ExecState)
    (now valMs execMs : Nat) : List Event × ExecOutcome × ExecState :=
  let opts : ExecuteToolOptions := { timeoutMs := facadeTimeoutMs defaultTimeoutSeconds }
  match executeTool reg acs toolName input opts st now valMs execMs with
  | (ExecOutcome.ok r, st1, _) =>
      ([⟨EventType.tool_execution_started, toolName⟩,
        ⟨EventType.tool_execution_completed, toolName⟩], ExecOutcome.ok r, st1)
  | (ExecOutcome.err e, st1, _) =>
      ([⟨EventType.tool_execution_started, toolName⟩,
        ⟨EventType.tool_execution_failed, toolName⟩], ExecOutcome.err e, st1)
  | (ExecOutcome.diverges, st1, _) =>
      ([⟨EventType.tool_execution_started, toolName⟩], ExecOutcome.diverges, st1)

/-- Classifier: is this outcome an access-denied failure? -/
def isAccessDeniedOutcome : ExecOutcome → Bool
  | ExecOutcome.err (ExecError.accessDenied _ _) => true
  | _ => false

/-! Concrete fixtures used to instantiate the theorems below. -/

/-- A schema whose parse accepts any input unchanged. -/
def idSchema : Json → Except String Json := fun j => Except.ok j

/-- A minimal tool with no configuration, like the `add` tool of the
repo's basic integration test. -/
def addTool : Tool :=
  ⟨"add", "Add two numbers", idSchema, fun j => HandlerResult.ok j, none⟩

/-- The built-in access-control state: no per-tool policies, default
allow-list [admin, user]. -/
def defaultAcs : AccessControlState :=
  ⟨[], [UserRole.admin, UserRole.user]⟩

/-- A tool registered with caching disabled in its configuration. -/
def noCacheTool : Tool :=
  ⟨"t", "cache-disabled tool", idSchema, fun _ => HandlerResult.ok (Json.num 7),
    some { enableCache := some false }⟩

/-- A cached invocation result different from anything noCacheTool's
handler produces. -/
def staleResult : ToolExecutionResult := ⟨"t", Json.num 99, 5⟩

/-- Executor state whose cache holds staleResult under noCacheTool's
fingerprint for input 1, never expiring. -/
def stCached : ExecState := ⟨[("t:1", ⟨staleResult, 0, 0⟩)], []⟩

/-- First tool registered under the name greet. -/
def greetTool1 : Tool :=
  ⟨"greet", "first definition", idSchema, fun j => HandlerResult.ok j, none⟩

/-- A second, different tool definition under the same name greet. -/
def greetTool2 : Tool :=
  ⟨"greet", "second definition", idSchema, fun _ => HandlerResult.ok Json.null, none⟩

/-- A full two-entry cache over Nat values: key a created at time 0,
key b created at time 5. -/
def fullCache : Cache Nat := [("a", ⟨1, 0, 0⟩), ("b", ⟨2, 5, 0⟩)]

/-! Helper lemmas about the map and cache primitives. -/

theorem mapGet_mapSet_self {β : Type} (m : List (String × β)) (k : String) (v : β) :
    mapGet (mapSet m k v) k = some v := by
  induction m with
  | nil => simp [mapGet, mapSet]
  | cons hd tl ih =>
      obtain ⟨k', v'⟩ := hd
      by_cases h : k' = k
      · simp [mapSet, h, mapGet]
      · simp [mapSet, h, mapGet, ih]

theorem mapGet_mapSet_other {β : Type} (m : List (String × β)) (k k' : String) (v : β)
    (h : k' ≠ k) : mapGet (mapSet m k v) k' = mapGet m k' := by
  induction m with
  | nil => simp [mapGet, mapSet, Ne.symm h]
  | cons hd tl ih =>
      obtain ⟨ka, va⟩ := hd
      by_cases hk : ka = k
      · subst hk
        simp [mapSet, mapGet, Ne.symm h]
      · by_cases hk' : ka = k'
        · simp [mapSet, hk, mapGet, hk', h]
        · simp [mapSet, hk, mapGet, hk', ih]

theorem mapGet_eq_none_of_not_mem_keys {β : Type} (m : List (String × β)) (k : String)
    (h : k ∉ m.map Prod.fst) : mapGet m k = none := by
  induction m with
  | nil => simp [mapGet]
  | cons hd tl ih =>
      obtain ⟨ka, va⟩ := hd
      simp only [List.map_cons, List.mem_cons] at h
      push_neg at h
      simp [mapGet, Ne.symm h.1, ih h.2]

theorem mapGet_mapDelete_self_of_nodup {β : Type} (m : List (String × β)) (k : String)
    (h : (m.map Prod.fst).Nodup) : mapGet (mapDelete m k) k = none := by
  induction m with
  | nil => simp [mapGet, mapDelete]
  | cons hd tl ih =>
      obtain ⟨ka, va⟩ := hd
      simp only [List.map_cons, List.nodup_cons] at h
      by_cases hk : ka = k
      · subst hk
        simpa [mapDelete] using mapGet_eq_none_of_not_mem_keys tl ka h.1
      · simp [mapDelete, hk, mapGet, ih h.2]

theorem mapHas_of_mem {β : Type} {m : List (String × β)} {k : String} {v : β}
    (h : (k, v) ∈ m) : mapHas m k = true := by
  induction m with
  | nil => simp at h
  | cons hd tl ih =>
      obtain ⟨ka, va⟩ := hd
      rcases List.mem_cons.1 h with h1 | h2
      · injection h1 with h1a h1b
        subst h1a
        simp [mapHas, mapGet]
      · by_cases hk : ka = k
        · simp [mapHas, mapGet, hk]
        · simpa [mapHas, mapGet, hk] using ih h2

theorem mapSet_length {β : Type} (m : List (String × β)) (k : String) (v : β) :
    (mapSet m k v).length = if mapHas m k then m.length else m.length + 1 := by
  induction m with
  | nil => simp [mapSet, mapHas, mapGet]
  | cons hd tl ih =>
      obtain ⟨ka, va⟩ := hd
      by_cases hk : ka = k
      · subst hk
        simp [mapSet, mapHas, mapGet]
      · simp only [mapSet, if_neg hk, List.length_cons, mapHas, mapGet, if_neg hk]
        simp only [mapHas] at ih
        rw [ih]
        by_cases hh : (mapGet tl k).isSome = true
        · simp [hh]
        · simp [hh]

theorem mapDelete_length_of_has {β : Type} (m : List (String × β)) (k : String)
    (h : mapHas m k = true) : (mapDelete m k).length + 1 = m.length := by
  induction m with
  | nil => simp [mapHas, mapGet] at h
  | cons hd tl ih =>
      obtain ⟨ka, va⟩ := hd
      by_cases hk : ka = k
      · simp [mapDelete, hk]
      · simp only [mapHas, mapGet, if_neg hk] at h
        simp only [mapDelete, if_neg hk, List.length_cons]
        rw [ih (by simpa [mapHas] using h)]

theorem foldl_oldestStep_some {α : Type} (l : Cache α) (p : String × Nat) :
    (l.foldl oldestStep (some p)).isSome = true := by
  induction l generalizing p with
  | nil => simp
  | cons hd tl ih =>
      obtain ⟨pk, pt⟩ := p
      simp only [List.foldl_cons]
      by_cases hlt : hd.2.timestamp < pt
      · simpa [oldestStep, hlt] using ih (hd.1, hd.2.timestamp)
      · simpa [oldestStep, hlt] using ih (pk, pt)

theorem foldl_oldestStep_mem {α : Type} (l : Cache α) (acc : Option (String × Nat))
    (p : String × Nat) (h : l.foldl oldestStep acc = some p) :
    acc = some p ∨ ∃ e ∈ l, p = (e.1, e.2.timestamp) := by
  induction l generalizing acc with
  | nil => exact Or.inl h
  | cons hd tl ih =>
      simp only [List.foldl_cons] at h
      rcases ih (oldestStep acc hd) h with h1 | h2
      · match acc with
        | none =>
            simp only [oldestStep] at h1
            exact Or.inr ⟨hd, List.mem_cons_self hd tl, (Option.some.inj h1).symm⟩
        | some q =>
            obtain ⟨qk, qt⟩ := q
            simp only [oldestStep] at h1
            by_cases hlt : hd.2.timestamp < qt
            · rw [if_pos hlt] at h1
              exact Or.inr ⟨hd, List.mem_cons_self hd tl, (Option.some.inj h1).symm⟩
            · rw [if_neg hlt] at h1
              exact Or.inl h1
      · obtain ⟨e, he, hpe⟩ := h2
        exact Or.inr ⟨e, List.mem_cons_of_mem hd he, hpe⟩

theorem findOldestEntry_has {α : Type} (c : Cache α) (k : String)
    (h : findOldestEntry c = some k) : mapHas c k = true := by
  simp only [findOldestEntry, Option.map_eq_some'] at h
  obtain ⟨p, hp, hk⟩ := h
  rcases foldl_oldestStep_mem c none p hp with h1 | h2
  · exact absurd h1 (by simp)
  · obtain ⟨e, he, hpe⟩ := h2
    subst hk
    rw [hpe]
    exact mapHas_of_mem (m := c) (v := e.2) (by simpa using he)

theorem findOldestEntry_isSome {α : Type} (c : Cache α) (h : c ≠ []) :
    (findOldestEntry c).isSome = true := by
  match c with
  | [] => exact absurd rfl h
  | hd :: tl =>
      have hstep : oldestStep (α := α) none hd = some (hd.1, hd.2.timestamp) := by
        simp [oldestStep]
      have hsome := foldl_oldestStep_some tl (hd.1, hd.2.timestamp)
      obtain ⟨p, hp⟩ := Option.isSome_iff_exists.1 hsome
      simp [findOldestEntry, List.foldl_cons, hstep, hp]

theorem cacheGet_fst_some {α : Type} {c : Cache α} {k : String} {now : Nat} {v : α}
    (h : (cacheGet c k now).1 = some v) : cacheGet c k now = (some v, c) := by
  rcases hm : mapGet c k with _ | e
  · simp [cacheGet, hm] at h
  · by_cases hexp : 0 < e.ttlMs ∧ e.ttlMs < now - e.timestamp
    · simp [cacheGet, hm, hexp] at h
    · have h' : e.value = v := by simpa [cacheGet, hm, hexp] using h
      simp [cacheGet, hm, hexp, h']

theorem runToolStages_not_accessDenied (tool : Tool) (toolName : String) (input : Json)
    (options : ExecuteToolOptions) (useCache : Bool) (st : ExecState)
    (now valMs execMs : Nat) :
    isAccessDeniedOutcome
      (runToolStages tool toolName input options useCache st now valMs execMs).1 = false := by
  unfold runToolStages
  repeat' split
  all_goals simp [finishSuccess, isAccessDeniedOutcome]

theorem executeToolAfterAuth_not_accessDenied (tool : Tool) (toolName : String) (input : Json)
    (options : ExecuteToolOptions) (st : ExecState) (now valMs execMs : Nat) :
    isAccessDeniedOutcome
      (executeToolAfterAuth tool toolName input options st now valMs execMs).1 = false := by
  simp only [executeToolAfterAuth]
  cases hu : resolveUseCache options.useCache with
  | false =>
      simp only [hu, Bool.false_eq_true, if_false]
      exact runToolStages_not_accessDenied ..
  | true =>
      simp only [hu, if_true]
      rcases hcg : cacheGet st.cache (generateCacheKey toolName input) now with ⟨o1, c1⟩
      cases o1 with
      | none => exact runToolStages_not_accessDenied ..
      | some cached => rfl

theorem executeTool_acs_irrelevant_without_role (reg : Registry)
    (acs acs' : AccessControlState) (toolName : String) (input : Json)
    (tMs : Option Nat) (uC : Option Bool) (cTtl : Option Nat) (cm : Option Bool)
    (st : ExecState) (now valMs execMs : Nat) :
    executeTool reg acs toolName input ⟨tMs, uC, cTtl, none, cm⟩ st now valMs execMs
      = executeTool reg acs' toolName input ⟨tMs, uC, cTtl, none, cm⟩ st now valMs execMs := by
  unfold executeTool
  rcases hg : getTool reg toolName with _ | tool <;> rfl

theorem executeTool_not_denied_without_role (reg : Registry) (acs : AccessControlState)
    (toolName : String) (input : Json) (tMs : Option Nat) (uC : Option Bool)
    (cTtl : Option Nat) (cm : Option Bool) (st : ExecState) (now valMs execMs : Nat) :
    isAccessDeniedOutcome
      (executeTool reg acs toolName input ⟨tMs, uC, cTtl, none, cm⟩ st now valMs execMs).1
      = false := by
  unfold executeTool
  rcases hg : getTool reg toolName with _ | tool
  · rfl
  · exact executeToolAfterAuth_not_accessDenied ..

/-! The claims. -/

/-- C1: the claim states that the effective timeout is the per-call
timeoutMs when supplied, else the configured timeoutSeconds in ms, else
none, and that a call with only a per-call timeoutMs on a config-less
tool uses exactly that value. The code's resolution disagrees: with a
per-call timeoutMs of 1000 and no tool config it crashes with a
TypeError that surfaces as a generic wrapped execution error (conjuncts
1 and 3), where the specified resolution yields a 1000 ms deadline
(conjunct 2); and with a per-call 2000 ms on a tool configured with
timeoutSeconds 1 the effective deadline is 1000 ms, not the per-call
value (conjuncts 4 and 5). -/
theorem C1_per_call_timeout_code_bug :
    resolveTimeoutSetup (some 1000) none = TimeoutSetup.crash
    ∧ specResolveTimeout (some 1000) none = TimeoutSetup.withTimeout 1000
    ∧ (executeTool [("add", addTool)] defaultAcs "add" (Json.num 1)
        ⟨some 1000, none, none, none, none⟩ ⟨[], []⟩ 0 0 0).1
        = ExecOutcome.err (ExecError.generic "add" Thrown.typeErrorConfigUndefined)
    ∧ resolveTimeoutSetup (some 2000) (some { timeoutSeconds := some 1 })
        = TimeoutSetup.withTimeout 1000
    ∧ specResolveTimeout (some 2000) (some { timeoutSeconds := some 1 })
        = TimeoutSetup.withTimeout 2000 :=
  ⟨rfl, rfl, rfl, rfl, rfl⟩

/-- C2, counterexample: the claim states that with no per-call useCache
option, caching follows the tool's enableCache flag, so a tool with
enableCache = false performs no cache probe. On the code, a call on
such a tool with no per-call option still probes the cache: with a
fresh entry under the fingerprint it returns the stale cached result
(whereas the specified resolution disables caching, conjunct 1). -/
theorem C2_enableCache_ignored_counterexample :
    specResolveUseCache none noCacheTool.config = false
    ∧ executeTool [("t", noCacheTool)] defaultAcs "t" (Json.num 1)
        ⟨none, none, none, none, none⟩ stCached 10 0 0
        = (ExecOutcome.ok staleResult, stCached, ⟨false, false⟩) :=
  ⟨rfl, rfl⟩

/-- C2, amended: whether caching is used is resolved from the per-call
useCache option alone, defaulting to enabled; the tool's configured
enableCache flag is ignored entirely — executeTool behaves identically
for any value of config.enableCache, so a tool registered with
enableCache = false and invoked with no per-call option still probes
and populates the cache. -/
theorem C2_enableCache_ignored_amended :
    (∀ (u : Option Bool), resolveUseCache u = u.getD true)
    ∧ ∀ (n d : String) (s : Json → Except String Json) (h : Json → HandlerResult)
        (c : ToolConfig) (b : Option Bool) (acs : AccessControlState) (input : Json)
        (options : ExecuteToolOptions) (st : ExecState) (now valMs execMs : Nat),
        executeTool [(n, ⟨n, d, s, h, some c⟩)] acs n input options st now valMs execMs
          = executeTool [(n, ⟨n, d, s, h, some { c with enableCache := b }⟩)] acs n input
              options st now valMs execMs := by
  refine ⟨fun u => rfl, ?_⟩
  intro n d s h c b acs input options st now valMs execMs
  unfold executeTool
  rw [show getTool [(n, (⟨n, d, s, h, some c⟩ : Tool))] n = some ⟨n, d, s, h, some c⟩ from
        by simp [getTool, mapGet],
      show getTool [(n, (⟨n, d, s, h, some { c with enableCache := b }⟩ : Tool))] n
          = some ⟨n, d, s, h, some { c with enableCache := b }⟩ from by simp [getTool, mapGet]]
  obtain ⟨tMs, uC, cTtl, ur, cm⟩ := options
  cases ur with
  | none => rfl
  | some role =>
      by_cases hr : isAllowed acs n role
      · simp only [hr, if_true]
        rfl
      · simp only [hr, if_false]
        rfl

/-- C3: the administrator role is always allowed by isAllowed, for every
policy-store state (including empty allow-lists), and consequently an
executeTool call whose options carry the administrator role never
produces an access-denied failure. -/
theorem C3_admin_always_allowed :
    (∀ (acs : AccessControlState) (toolName : String),
        isAllowed acs toolName UserRole.admin = true)
    ∧ ∀ (reg : Registry) (acs : AccessControlState) (toolName : String) (input : Json)
        (tMs : Option Nat) (uC : Option Bool) (cTtl : Option Nat) (cm : Option Bool)
        (st : ExecState) (now valMs execMs : Nat),
        isAccessDeniedOutcome
          (executeTool reg acs toolName input ⟨tMs, uC, cTtl, some UserRole.admin, cm⟩
            st now valMs execMs).1 = false := by
  refine ⟨fun acs toolName => by simp [isAllowed], ?_⟩
  intro reg acs toolName input tMs uC cTtl cm st now valMs execMs
  unfold executeTool
  rcases hg : getTool reg toolName with _ | tool
  · rfl
  · have hAllowed : isAllowed acs toolName UserRole.admin = true := by simp [isAllowed]
    simp only [hAllowed, if_true]
    exact executeToolAfterAuth_not_accessDenied ..

/-- C9: the facade's executeTool passes only a timeout option to the
executor (no user role), so the authorize stage is skipped: the facade
call's behaviour is independent of the access-policy store state, and
its outcome is never an access-denied failure. -/
theorem C9_facade_skips_authorization :
    (∀ (dflt : Option Nat) (reg : Registry) (acs acs' : AccessControlState)
        (toolName : String) (input : Json) (st : ExecState) (now valMs execMs : Nat),
        facadeExecuteTool dflt reg acs toolName input st now valMs execMs
          = facadeExecuteTool dflt reg acs' toolName input st now valMs execMs)
    ∧ ∀ (dflt : Option Nat) (reg : Registry) (acs : AccessControlState)
        (toolName : String) (input : Json) (st : ExecState) (now valMs execMs : Nat),
        isAccessDeniedOutcome
          (facadeExecuteTool dflt reg acs toolName input st now valMs execMs).2.1 = false := by
  constructor
  · intro dflt reg acs acs' toolName input st now valMs execMs
    simp only [facadeExecuteTool]
    rw [executeTool_acs_irrelevant_without_role reg acs acs' toolName input
      (facadeTimeoutMs dflt) none none none st now valMs execMs]
  · intro dflt reg acs toolName input st now valMs execMs
    have hnd := executeTool_not_denied_without_role reg acs toolName input
      (facadeTimeoutMs dflt) none none none st now valMs execMs
    simp only [facadeExecuteTool]
    rcases hE : executeTool reg acs toolName input
        ⟨facadeTimeoutMs dflt, none, none, none, none⟩ st now valMs execMs with ⟨o, st1, tr⟩
    rw [hE] at hnd
    cases o with
    | ok r => rfl
    | err e => simpa using hnd
    | diverges => rfl

/-- C4: when a call reaches the cache probe (tool resolved, authorize
passed or skipped), caching is enabled for the call, and the
fingerprint has a fresh entry, executeTool returns the cached result
with the state fully unchanged (no metrics recorded, no cache
population) and with neither the validator nor the handler run. -/
theorem C4_cache_hit_short_circuit (reg : Registry) (acs : AccessControlState)
    (toolName : String) (input : Json) (options : ExecuteToolOptions) (st : ExecState)
    (now valMs execMs : Nat) (tool : Tool) (r : ToolExecutionResult)
    (hTool : getTool reg toolName = some tool)
    (hRole : ∀ role, options.userRole = some role → isAllowed acs toolName role = true)
    (hUse : resolveUseCache options.useCache = true)
    (hHit : (cacheGet st.cache (generateCacheKey toolName input) now).1 = some r) :
    executeTool reg acs toolName input options st now valMs execMs
      = (ExecOutcome.ok r, st, ⟨false, false⟩) := by
  have hCG := cacheGet_fst_some hHit
  have hAfter : executeToolAfterAuth tool toolName input options st now valMs execMs
      = (ExecOutcome.ok r, st, ⟨false, false⟩) := by
    simp only [executeToolAfterAuth, hUse, if_true, hCG]
  unfold executeTool
  rw [hTool]
  rcases hur : options.userRole with _ | role
  · exact hAfter
  · simp only [hRole role hur, if_true]
    exact hAfter

/-- C4 witness: a concrete call on a registered tool with a fresh cache
entry under the fingerprint returns the cached result and leaves the
state untouched. -/
theorem C4_cache_hit_short_circuit_witness :
    executeTool [("t", noCacheTool)] defaultAcs "t" (Json.num 1)
        ⟨none, some true, none, none, none⟩ stCached 10 0 0
      = (ExecOutcome.ok staleResult, stCached, ⟨false, false⟩) :=
  C4_cache_hit_short_circuit [("t", noCacheTool)] defaultAcs "t" (Json.num 1)
    ⟨none, some true, none, none, none⟩ stCached 10 0 0 noCacheTool staleResult
    rfl (fun _ h => nomatch h) rfl rfl

/-- C5: registering a tool under a name already present raises the
duplicate-registration error and leaves the registry unchanged, so
getTool still returns the originally registered definition. -/
theorem C5_duplicate_registration (reg : Registry) (t0 t1 : Tool)
    (hDup : getTool reg t1.name = some t0) :
    (register reg t1).2.isSome = true
    ∧ (register reg t1).1 = reg
    ∧ getTool (register reg t1).1 t1.name = some t0 := by
  have hHas : mapHas reg t1.name = true := by
    unfold mapHas
    unfold getTool at hDup
    rw [hDup]
    rfl
  refine ⟨?_, ?_, ?_⟩ <;> simp [register, hHas, hDup]

/-- C5 witness: registering a second tool named greet next to an
existing greet raises the error and getTool still returns the first. -/
theorem C5_duplicate_registration_witness :
    (register [("greet", greetTool1)] greetTool2).2.isSome = true
    ∧ (register [("greet", greetTool1)] greetTool2).1 = [("greet", greetTool1)]
    ∧ getTool (register [("greet", greetTool1)] greetTool2).1 greetTool2.name
        = some greetTool1 :=
  C5_duplicate_registration [("greet", greetTool1)] greetTool1 greetTool2 rfl

/-- C6: for an entry set with ttl T > 0, get and has report it present
(unchanged cache) at any read strictly within T of creation, and
report it absent with lazy deletion at any read with now − created > T;
an entry set with ttl 0 never expires. -/
theorem C6_cache_ttl_expiry {α : Type} (maxEntries : Nat) (c : Cache α) (k : String)
    (v : α) (T created now : Nat) :
    (0 < T → now < created + T →
        cacheGet (cacheSet maxEntries c k v T created) k now
          = (some v, cacheSet maxEntries c k v T created)
        ∧ cacheHas (cacheSet maxEntries c k v T created) k now
          = (true, cacheSet maxEntries c k v T created))
    ∧ (0 < T → created + T < now →
        cacheGet (cacheSet maxEntries c k v T created) k now
          = (none, mapDelete (cacheSet maxEntries c k v T created) k)
        ∧ cacheHas (cacheSet maxEntries c k v T created) k now
          = (false, mapDelete (cacheSet maxEntries c k v T created) k))
    ∧ (T = 0 →
        cacheGet (cacheSet maxEntries c k v T created) k now
          = (some v, cacheSet maxEntries c k v T created)
        ∧ cacheHas (cacheSet maxEntries c k v T created) k now
          = (true, cacheSet maxEntries c k v T created)) := by
  have hget : mapGet (cacheSet maxEntries c k v T created) k
      = some ⟨v, created, T⟩ := by
    simp only [cacheSet]
    exact mapGet_mapSet_self ..
  refine ⟨?_, ?_, ?_⟩
  · intro hT hlt
    have hcond : ¬(0 < T ∧ T < now - created) := by omega
    constructor <;> simp [cacheGet, cacheHas, hget, hcond]
  · intro hT hgt
    have hcond : 0 < T ∧ T < now - created := by omega
    constructor <;> simp [cacheGet, cacheHas, hget, hcond]
  · intro hT
    subst hT
    have hcond : ¬(0 < 0 ∧ 0 < now - created) := by omega
    constructor <;> simp [cacheGet, cacheHas, hget, hcond]

/-- C6 witness: an entry with ttl 10 created at time 0 is readable at
time 5 and expired (lazily deleted) at time 11; an entry with ttl 0 is
still readable at time 999. -/
theorem C6_cache_ttl_expiry_witness :
    cacheGet (cacheSet 10 ([] : Cache Nat) "k" 42 10 0) "k" 5
      = (some 42, cacheSet 10 ([] : Cache Nat) "k" 42 10 0)
    ∧ cacheGet (cacheSet 10 ([] : Cache Nat) "k" 42 10 0) "k" 11
      = (none, mapDelete (cacheSet 10 ([] : Cache Nat) "k" 42 10 0) "k")
    ∧ (cacheHas (cacheSet 10 ([] : Cache Nat) "k" 42 0 0) "k" 999).1 = true :=
  ⟨((C6_cache_ttl_expiry 10 [] "k" 42 10 0 5).1 (by decide) (by decide)).1,
   ((C6_cache_ttl_expiry 10 [] "k" 42 10 0 11).2.1 (by decide) (by decide)).1,
   by rw [((C6_cache_ttl_expiry 10 [] "k" 42 0 0 999).2.2 rfl).2]⟩

/-- C7, counterexample: the claim states that structurally-equal inputs
(same key-value pairs in different key orders) fingerprint to the same
cache key. On the code the fingerprint serializes object fields in
insertion order, so the two permuted objects below get different keys
(conjunct 2) and one does not hit a cache entry stored under the
other's key (conjunct 3). -/
theorem C7_fingerprint_key_order_counterexample :
    List.Perm [("a", Json.num 1), ("b", Json.num 2)] [("b", Json.num 2), ("a", Json.num 1)]
    ∧ generateCacheKey "t" (Json.obj [("a", Json.num 1), ("b", Json.num 2)])
        ≠ generateCacheKey "t" (Json.obj [("b", Json.num 2), ("a", Json.num 1)])
    ∧ (cacheGet
          [(generateCacheKey "t" (Json.obj [("a", Json.num 1), ("b", Json.num 2)]),
            (⟨0, 0, 0⟩ : CacheEntry Nat))]
          (generateCacheKey "t" (Json.obj [("b", Json.num 2), ("a", Json.num 1)])) 0).1
        = none := by
  refine ⟨List.Perm.swap _ _ _, ?_, ?_⟩
  · decide
  · decide

/-- C7, amended: the fingerprint is toolName ++ ":" ++ JSON.stringify
of the input, where serialization keeps object-field insertion order;
two inputs hit the same cache entry exactly when their serializations
coincide, so structurally-equal mapping inputs with different key
orders can produce different keys and miss each other's entries. -/
theorem C7_fingerprint_key_order_amended (toolName : String) (i1 i2 : Json) :
    generateCacheKey toolName i1 = generateCacheKey toolName i2
      ↔ stringify i1 = stringify i2 := by
  constructor
  · intro h
    have h2 : (toolName ++ ":").data ++ (stringify i1).data
        = (toolName ++ ":").data ++ (stringify i2).data := by
      have h3 := congrArg String.data h
      simpa [generateCacheKey, String.data_append] using h3
    exact String.ext (List.append_cancel_left h2)
  · intro h
    unfold generateCacheKey
    rw [h]

/-- C8: a facade call emits tool_execution_started first; its outcome
is exactly the executor's outcome (errors re-raised); a successful call
emits started then completed and nothing else; a failing call emits
started then failed and nothing else; no call emits both a completed
and a failed event. -/
theorem C8_facade_event_ordering (dflt : Option Nat) (reg : Registry)
    (acs : AccessControlState) (toolName : String) (input : Json) (st : ExecState)
    (now valMs execMs : Nat) :
    (facadeExecuteTool dflt reg acs toolName input st now valMs execMs).1.head?
      = some ⟨EventType.tool_execution_started, toolName⟩
    ∧ (facadeExecuteTool dflt reg acs toolName input st now valMs execMs).2.1
      = (executeTool reg acs toolName input ⟨facadeTimeoutMs dflt, none, none, none, none⟩
          st now valMs execMs).1
    ∧ (∀ r, (facadeExecuteTool dflt reg acs toolName input st now valMs execMs).2.1
          = ExecOutcome.ok r →
        (facadeExecuteTool dflt reg acs toolName input st now valMs execMs).1
          = [⟨EventType.tool_execution_started, toolName⟩,
             ⟨EventType.tool_execution_completed, toolName⟩])
    ∧ (∀ e, (facadeExecuteTool dflt reg acs toolName input st now valMs execMs).2.1
          = ExecOutcome.err e →
        (facadeExecuteTool dflt reg acs toolName input st now valMs execMs).1
          = [⟨EventType.tool_execution_started, toolName⟩,
             ⟨EventType.tool_execution_failed, toolName⟩])
    ∧ ¬((⟨EventType.tool_execution_completed, toolName⟩ : Event)
          ∈ (facadeExecuteTool dflt reg acs toolName input st now valMs execMs).1
        ∧ (⟨EventType.tool_execution_failed, toolName⟩ : Event)
          ∈ (facadeExecuteTool dflt reg acs toolName input st now valMs execMs).1) := by
  rcases hE : executeTool reg acs toolName input
      ⟨facadeTimeoutMs dflt, none, none, none, none⟩ st now valMs execMs with ⟨o, st1, tr⟩
  simp only [facadeExecuteTool, hE]
  cases o with
  | ok r =>
      refine ⟨rfl, rfl, fun r' hr' => rfl, fun e he => absurd he (by simp), fun hmem => ?_⟩
      simpa using hmem.2
  | err e =>
      refine ⟨rfl, rfl, fun r' hr' => absurd hr' (by simp), fun e' he' => rfl, fun hmem => ?_⟩
      simpa using hmem.1
  | diverges =>
      refine ⟨rfl, rfl, fun r' hr' => absurd hr' (by simp),
        fun e' he' => absurd he' (by simp), fun hmem => ?_⟩
      simpa using hmem.1

/-- C8 witness: a concrete successful facade call emits exactly started
followed by completed. -/
theorem C8_facade_event_ordering_witness :
    (facadeExecuteTool none [("t", noCacheTool)] defaultAcs "t" (Json.num 1)
        stCached 10 0 0).1
      = [⟨EventType.tool_execution_started, "t"⟩,
         ⟨EventType.tool_execution_completed, "t"⟩] :=
  (C8_facade_event_ordering none [("t", noCacheTool)] defaultAcs "t" (Json.num 1)
    stCached 10 0 0).2.2.1 staleResult rfl

/-- C10, counterexample: the claim states that a set on a full cache
always removes one entry unrelated to the key being set, and that the
size never exceeds maxEntries. Overwriting key a on a full two-entry
cache in which a is itself the oldest entry evicts only a's own old
entry: the unrelated key b survives and the size is unchanged
(conjuncts 1-3); and with maxEntries = 0 a set leaves the cache above
its maximum (conjunct 4). -/
theorem C10_full_cache_eviction_counterexample :
    cacheSet 2 fullCache "a" 9 0 7 = [("b", ⟨2, 5, 0⟩), ("a", ⟨9, 7, 0⟩)]
    ∧ mapGet (cacheSet 2 fullCache "a" 9 0 7) "b" = some ⟨2, 5, 0⟩
    ∧ (cacheSet 2 fullCache "a" 9 0 7).length = fullCache.length
    ∧ ¬((cacheSet 0 ([] : Cache Nat) "k" 5 0 0).length ≤ 0) :=
  ⟨rfl, rfl, rfl, by decide⟩

/-- C10, amended: when the cache holds at least maxEntries entries,
set first evicts the entry with the oldest creation timestamp, even
when the key being set is already present; when the evicted oldest key
differs from the key being set (and keys are distinct), an unrelated
entry is removed; and for maxEntries at least 1, a set on a cache of at
most maxEntries entries leaves at most maxEntries entries. -/
theorem C10_full_cache_eviction_amended {α : Type} (maxEntries : Nat) (c : Cache α)
    (k : String) (v : α) (ttl now : Nat) :
    (∀ oldestKey, maxEntries ≤ c.length → findOldestEntry c = some oldestKey →
        cacheSet maxEntries c k v ttl now
          = mapSet (mapDelete c oldestKey) k ⟨v, now, ttl⟩)
    ∧ (∀ oldestKey, maxEntries ≤ c.length → findOldestEntry c = some oldestKey →
        (c.map Prod.fst).Nodup → k ≠ oldestKey →
        mapGet (cacheSet maxEntries c k v ttl now) oldestKey = none)
    ∧ (1 ≤ maxEntries → c.length ≤ maxEntries →
        (cacheSet maxEntries c k v ttl now).length ≤ maxEntries) := by
  have h1 : ∀ oldestKey, maxEntries ≤ c.length → findOldestEntry c = some oldestKey →
      cacheSet maxEntries c k v ttl now
        = mapSet (mapDelete c oldestKey) k ⟨v, now, ttl⟩ := by
    intro oldestKey hlen hol
    simp [cacheSet, hlen, hol]
  refine ⟨h1, ?_, ?_⟩
  · intro oldestKey hlen hol hnd hne
    rw [h1 oldestKey hlen hol,
      mapGet_mapSet_other (mapDelete c oldestKey) k oldestKey ⟨v, now, ttl⟩ (Ne.symm hne)]
    exact mapGet_mapDelete_self_of_nodup c oldestKey hnd
  · intro hmax hle
    by_cases hfull : maxEntries ≤ c.length
    · have hlen_eq : c.length = maxEntries := Nat.le_antisymm hle hfull
      have hne : c ≠ [] := by
        intro hnil
        rw [hnil] at hlen_eq
        simp at hlen_eq
        omega
      obtain ⟨oldestKey, hok⟩ := Option.isSome_iff_exists.1 (findOldestEntry_isSome c hne)
      have hhas := findOldestEntry_has c oldestKey hok
      have hdel := mapDelete_length_of_has c oldestKey hhas
      rw [h1 oldestKey hfull hok, mapSet_length]
      by_cases hmk : mapHas (mapDelete c oldestKey) k = true
      · rw [if_pos hmk]
        omega
      · rw [if_neg hmk]
        omega
    · push_neg at hfull
      have hnotle : ¬(maxEntries ≤ c.length) := by omega
      simp only [cacheSet, if_neg hnotle]
      rw [mapSet_length]
      by_cases hmk : mapHas c k = true
      · rw [if_pos hmk]
        omega
      · rw [if_neg hmk]
        omega

/-- C10 witness for the amended claim: on a full two-entry cache,
setting a fresh key c evicts the oldest key a; key a is gone afterward
and the size stays at the maximum. -/
theorem C10_full_cache_eviction_amended_witness :
    cacheSet 2 fullCache "c" 9 0 7 = mapSet (mapDelete fullCache "a") "c" ⟨9, 7, 0⟩
    ∧ mapGet (cacheSet 2 fullCache "c" 9 0 7) "a" = none
    ∧ (cacheSet 2 fullCache "c" 9 0 7).length ≤ 2 :=
  ⟨(C10_full_cache_eviction_amended 2 fullCache "c" 9 0 7).1 "a" (by decide) rfl,
   (C10_full_cache_eviction_amended 2 fullCache "c" 9 0 7).2.1 "a" (by decide) rfl
     (by decide) (by decide),
   (C10_full_cache_eviction_amended 2 fullCache "c" 9 0 7).2.2 (by decide) (by decide)⟩

end AgentRPC
